import Mathlib

/-!
Verification of the fixed-capacity 2D spatial hash grid library
(a `Table` of slots addressed by hash-then-modulo, and a `SpatialHashGrid`
built from two such tables, with insert / delete / reinsert / clear and
two region queries).

Modelling conventions:
* Machine integers (u32 / u64 / usize) are natural numbers; wherever the
  source relies on the 31-bit id / flag packing we work with `% 2 ^ 31`,
  `Nat.testBit 31` and `|||`, which agree with the u32 bit operations on
  the values the code stores.
* f32 coordinates are modelled as exact rationals; the saturating Rust
  cast `f as u32` becomes `truncU32` (truncation toward zero, negatives
  clamped to 0, capped at the u32 maximum).  The scenarios evaluated
  concretely below only use values on which f32 arithmetic is exact.
* Functions returning `&mut` references are modelled by read-modify-write
  of the addressed slot.
* A Rust panic (the `unwrap` in `delete`) is modelled by `Option`:
  `none` is a panic, `some g` a normal return.
-/

attribute [local semireducible] Rat.add Rat.sub Rat.mul

/-- The source's PositionVector: an (x, y) pair of f32 coordinates,
modelled as exact rationals. -/
structure PositionVector where
  x : ℚ
  y : ℚ
deriving DecidableEq

def PositionVector.new (x y : ℚ) : PositionVector := ⟨x, y⟩

/-- Rust's saturating cast of a float to u32: truncate toward zero,
clamp negatives to 0 and values above u32::MAX to u32::MAX. -/
def truncU32 (q : ℚ) : ℕ := if q < 0 then 0 else min q.floor.toNat (2 ^ 32 - 1)

/-- Doubling loop computing the least power of two that is at least n;
the fuel argument only forces termination and n doublings always suffice. -/
def nextPowerOfTwoGo (n : ℕ) : ℕ → ℕ → ℕ
  | 0, acc => acc
  | fuel + 1, acc => if n ≤ acc then acc else nextPowerOfTwoGo n fuel (2 * acc)

/-- Rust's usize::next_power_of_two: the least power of two that is
greater than or equal to the argument (1 for arguments 0 and 1). -/
def nextPowerOfTwo (n : ℕ) : ℕ := nextPowerOfTwoGo n n 1

/-- The source's hash_u64, explicitly an identity placeholder. -/
def hash_u64 (seed : ℕ) : ℕ := seed

/-- The source's vector_hash: pack two u32 cell coordinates into a u64 key. -/
def vector_hash (x y : ℕ) : ℕ := (x <<< 32) ||| y

/-- The source's fixed-size hash table: a vector of `capacity` slots plus
the stored capacity.  Two distinct keys that reduce to the same slot
share that slot. -/
structure Table (T : Type) where
  entries : List T
  capacity : ℕ
deriving DecidableEq

namespace Table

variable {T : Type} [Inhabited T]

/-- Table::new: capacity = next_power_of_two(size * 1000) + 1, all slots
default-initialised. -/
def new (T : Type) [Inhabited T] (size : ℕ) : Table T :=
  let capacity := nextPowerOfTwo (size * 1000) + 1
  { entries := List.replicate capacity default, capacity := capacity }

/-- Table::count: the current number of slots (entries.len()). -/
def count (t : Table T) : ℕ := t.entries.length

/-- Table::index: hash_u64(key) % entries.len(). -/
def index (t : Table T) (idx : ℕ) : ℕ := hash_u64 idx % t.entries.length

/-- Table::get_vector: the slot addressed by vector_hash(x, y). -/
def get_vector (t : Table T) (x y : ℕ) : T :=
  t.entries.getD (t.index (vector_hash x y)) default

/-- Writing through Table::get_vector_mut: replace the addressed slot. -/
def set_vector (t : Table T) (x y : ℕ) (v : T) : Table T :=
  { t with entries := t.entries.set (t.index (vector_hash x y)) v }

/-- Table::get_scalar: the slot addressed by the scalar key widened to u64. -/
def get_scalar (t : Table T) (s : ℕ) : T :=
  t.entries.getD (t.index (hash_u64 s)) default

/-- Writing through Table::get_scalar_mut: replace the addressed slot. -/
def set_scalar (t : Table T) (s : ℕ) (v : T) : Table T :=
  { t with entries := t.entries.set (t.index (hash_u64 s)) v }

/-- Table::clear: reset every slot to default, capacity slots in total. -/
def clear (t : Table T) : Table T :=
  { t with entries := List.replicate t.capacity default }

end Table

/-- A cell bucket: the packed u32 entity ids stored for one cell. -/
abbrev Entry : Type := List ℕ

/-- An entity occupancy record: the cells an entity was inserted into. -/
abbrev EntityMap : Type := List (ℕ × ℕ)

/-- The spatial hash grid: a cell-keyed table of buckets, an id-keyed
table of occupancy records, and the log2 cell size. -/
structure SpatialHashGrid where
  grid : Table Entry
  maps : Table EntityMap
  shift : ℕ
deriving DecidableEq

namespace SpatialHashGrid

/-- SpatialHashGrid::new. -/
def new (size : ℕ) (shift : ℕ) : SpatialHashGrid :=
  { grid := Table.new Entry size, maps := Table.new EntityMap size, shift := shift }

/-- SpatialHashGrid::count: size of the internal grid table. -/
def count (g : SpatialHashGrid) : ℕ := g.grid.count

/-- The cells visited by the nested loops `for y in sy..=ey { for x in
sx..=ex { ... } }`, in source iteration order (y outer, x inner). -/
def cellsOf (sx sy ex ey : ℕ) : List (ℕ × ℕ) :=
  (List.range' sy (ey + 1 - sy)).flatMap fun y =>
    (List.range' sx (ex + 1 - sx)).map fun x => (x, y)

/-- SpatialHashGrid::insert: derive the inclusive cell range from the
position and the diameter extent, then for each cell append the packed
id to the cell bucket and the cell to the id's occupancy record. -/
def insert (g : SpatialHashGrid) (id : ℕ) (position : PositionVector)
    (radius : ℚ) : SpatialHashGrid :=
  let dimensions := radius * 2
  let sx := truncU32 position.x >>> g.shift
  let sy := truncU32 position.y >>> g.shift
  let ex := truncU32 (position.x + dimensions) >>> g.shift
  let ey := truncU32 (position.y + dimensions) >>> g.shift
  let is_ideal := sx == ex && sy == ey
  let packed := id ||| ((if is_ideal then 1 else 0) <<< 31)
  (cellsOf sx sy ex ey).foldl
    (fun g2 c =>
      { g2 with
        maps := g2.maps.set_scalar id (g2.maps.get_scalar id ++ [c])
        grid := g2.grid.set_vector c.1 c.2 (g2.grid.get_vector c.1 c.2 ++ [packed]) })
    g

/-- The loop body of SpatialHashGrid::delete over the recorded cells:
in each recorded cell, find the first element whose low 31 bits equal
the id and remove it; `none` models the unwrap panic when no element
matches. -/
def deleteFromCells (id : ℕ) : Table Entry → List (ℕ × ℕ) → Option (Table Entry)
  | t, [] => some t
  | t, c :: rest =>
    match (t.get_vector c.1 c.2).findIdx? (fun v => v % 2 ^ 31 == id) with
    | none => none
    | some i =>
      deleteFromCells id (t.set_vector c.1 c.2 ((t.get_vector c.1 c.2).eraseIdx i)) rest

/-- SpatialHashGrid::delete: walk the id's occupancy record, removing the
id from each recorded cell (panicking if absent), then clear the record. -/
def delete (g : SpatialHashGrid) (id : ℕ) : Option SpatialHashGrid :=
  match deleteFromCells id g.grid (g.maps.get_scalar id) with
  | none => none
  | some grid2 => some { g with grid := grid2, maps := g.maps.set_scalar id [] }

/-- One iteration of the query inner loop over a stored packed id:
skip the querying entity itself; push the unpacked id unconditionally
when the stored ideal flag is set or the probe is single-cell; otherwise
push the still-packed id after a linear de-duplication scan. -/
def queryStep (is_ideal : Bool) (entity_id : ℕ) (result : List ℕ) (v : ℕ) : List ℕ :=
  if v % 2 ^ 31 == entity_id then result
  else if v.testBit 31 || is_ideal then result ++ [v % 2 ^ 31]
  else if !(result.contains v) && v != entity_id then result ++ [v]
  else result

/-- The shared body of both query operations, given the derived inclusive
cell range: fold `queryStep` over every stored id of every visited cell,
cells in source iteration order. -/
def queryCells (gridT : Table Entry) (entity_id sx sy ex ey : ℕ) : List ℕ :=
  let is_ideal := sx == ex && sy == ey
  ((cellsOf sx sy ex ey).flatMap fun c => gridT.get_vector c.1 c.2).foldl
    (queryStep is_ideal entity_id) []

/-- SpatialHashGrid::query_radius: the probe range uses the diameter
extent radius * 2 from the position. -/
def query_radius (g : SpatialHashGrid) (entity_id : ℕ) (position : PositionVector)
    (radius : ℚ) : List ℕ :=
  let dimensions := radius * 2
  queryCells g.grid entity_id
    (truncU32 position.x >>> g.shift) (truncU32 position.y >>> g.shift)
    (truncU32 (position.x + dimensions) >>> g.shift)
    (truncU32 (position.y + dimensions) >>> g.shift)

/-- SpatialHashGrid::query_rect: the probe range uses the width and
height extents from the position. -/
def query_rect (g : SpatialHashGrid) (entity_id : ℕ) (position : PositionVector)
    (width height : ℚ) : List ℕ :=
  queryCells g.grid entity_id
    (truncU32 position.x >>> g.shift) (truncU32 position.y >>> g.shift)
    (truncU32 (position.x + width) >>> g.shift)
    (truncU32 (position.y + height) >>> g.shift)

/-- SpatialHashGrid::reinsert: delete (propagating its panic) then insert. -/
def reinsert (g : SpatialHashGrid) (id : ℕ) (position : PositionVector)
    (radius : ℚ) : Option SpatialHashGrid :=
  (g.delete id).map fun g2 => g2.insert id position radius

/-- SpatialHashGrid::clear: clear both tables. -/
def clear (g : SpatialHashGrid) : SpatialHashGrid :=
  { g with grid := g.grid.clear, maps := g.maps.clear }

end SpatialHashGrid

/-- One public mutating call of the grid API; a panicking delete or
reinsert aborts the program, leaving the state it had reached, so for
the purpose of tracing table sizes it is modelled as keeping the
pre-call state. -/
inductive GridOp
  | ins (id : ℕ) (p : PositionVector) (r : ℚ)
  | del (id : ℕ)
  | reins (id : ℕ) (p : PositionVector) (r : ℚ)
  | clr

/-- Apply one API call to a grid. -/
def applyOp (g : SpatialHashGrid) : GridOp → SpatialHashGrid
  | .ins id p r => g.insert id p r
  | .del id => (g.delete id).getD g
  | .reins id p r => (g.reinsert id p r).getD g
  | .clr => g.clear

/-- Apply a sequence of API calls to a grid. -/
def applyOps (ops : List GridOp) (g : SpatialHashGrid) : SpatialHashGrid :=
  ops.foldl applyOp g

/-! ## Basic list and bit-packing lemmas -/

/-- Reading any position of a list after setting an in-range position. -/
theorem getD_set_of_lt {α : Type} (l : List α) (i : ℕ) (a : α) (s : ℕ) (d : α)
    (hi : i < l.length) :
    (l.set i a).getD s d = if i = s then a else l.getD s d := by
  by_cases hs : s < l.length
  · rw [List.getD_eq_getElem _ _ (by simpa using hs), List.getElem_set]
    split
    · rfl
    · rw [List.getD_eq_getElem _ _ hs]
  · rw [List.getD_eq_default _ _ (by simpa using Nat.le_of_not_lt hs),
      List.getD_eq_default _ _ (Nat.le_of_not_lt hs)]
    have : i ≠ s := by omega
    simp [this]

/-- Two lists of equal length agreeing on getD at every index are equal. -/
theorem list_ext_getD {α : Type} (l1 l2 : List α) (d : α)
    (hlen : l1.length = l2.length) (h : ∀ s, l1.getD s d = l2.getD s d) : l1 = l2 := by
  apply List.ext_getElem hlen
  intro n h1 h2
  have := h n
  rwa [List.getD_eq_getElem _ _ h1, List.getD_eq_getElem _ _ h2] at this

/-- The first index satisfying the predicate in E ++ v :: R, when nothing
in E satisfies it and v does, is the length of E. -/
theorem findIdx_eq_length_of_first {α : Type} (p : α → Bool) (E : List α) (v : α)
    (R : List α) (hE : ∀ u ∈ E, p u = false) (hv : p v = true) :
    (E ++ v :: R).findIdx? p = some E.length := by
  induction E with
  | nil => simp [List.findIdx?_cons, hv]
  | cons u E ih =>
    have hu : p u = false := hE u (by simp)
    have ih2 := ih fun w hw => hE w (by simp [hw])
    simp [List.findIdx?_cons, hu, ih2]

/-- Erasing the element at the length of the prefix removes the head of
the suffix. -/
theorem eraseIdx_at_length {α : Type} (E : List α) (v : α) (R : List α) :
    (E ++ v :: R).eraseIdx E.length = E ++ R := by
  induction E with
  | nil => rfl
  | cons u E ih => simpa using ih

/-- Bitwise or of a 31-bit value with the flag bit is plain addition. -/
theorem lor_flag_eq_add {a : ℕ} (h : a < 2 ^ 31) : a ||| 1 <<< 31 = a + 2 ^ 31 := by
  rw [Nat.shiftLeft_eq, one_mul]
  apply Nat.eq_of_testBit_eq
  intro i
  rw [Nat.testBit_lor]
  rcases lt_trichotomy i 31 with hi | rfl | hi
  · rw [Nat.testBit_two_pow_of_ne (by omega), Bool.or_false,
      Nat.testBit_to_div_mod, Nat.testBit_to_div_mod]
    have h2 : a + 2 ^ 31 = a + 2 ^ (31 - i) * 2 ^ i := by
      rw [← pow_add]
      congr 2
      omega
    rw [h2, Nat.add_mul_div_right _ _ (Nat.pos_pow_of_pos i (by norm_num))]
    have h3 : 2 ^ (31 - i) % 2 = 0 := by
      have h4 : 31 - i = (30 - i) + 1 := by omega
      rw [h4, pow_succ, Nat.mul_mod_left]
    simp only [decide_eq_decide]
    omega
  · rw [Nat.testBit_lt_two_pow h, Bool.false_or, Nat.testBit_two_pow_self,
      Nat.testBit_to_div_mod]
    have h5 : (a + 2 ^ 31) / 2 ^ 31 = 1 := by
      rw [Nat.add_div_right _ (Nat.pos_pow_of_pos 31 (by norm_num)),
        Nat.div_eq_of_lt h]
    rw [h5]
    simp
  · have ha : a < 2 ^ i := lt_of_lt_of_le h (Nat.pow_le_pow_right (by norm_num) (by omega))
    have hb : a + 2 ^ 31 < 2 ^ i := by
      have h6 : (2 : ℕ) ^ 32 ≤ 2 ^ i := Nat.pow_le_pow_right (by norm_num) (by omega)
      have h7 : a + 2 ^ 31 < 2 ^ 32 := by norm_num at h ⊢; omega
      omega
    rw [Nat.testBit_two_pow_of_ne (by omega), Bool.or_false,
      Nat.testBit_lt_two_pow ha, Nat.testBit_lt_two_pow hb]

/-- The packed id stored by insert, as a function of the ideal flag. -/
def packIdFlag (id : ℕ) (b : Bool) : ℕ := id ||| ((if b then 1 else 0) <<< 31)

/-- Unpacking recovers the id of a 31-bit entity id. -/
theorem packIdFlag_mod {id : ℕ} (h : id < 2 ^ 31) (b : Bool) :
    packIdFlag id b % 2 ^ 31 = id := by
  cases b with
  | false =>
    simp only [packIdFlag, Bool.false_eq_true, if_false, Nat.zero_shiftLeft, Nat.or_zero]
    exact Nat.mod_eq_of_lt h
  | true =>
    rw [packIdFlag]
    simp only [if_true]
    rw [lor_flag_eq_add h, Nat.add_mod_right, Nat.mod_eq_of_lt h]

/-- Bit 31 of the packed id is exactly the ideal flag. -/
theorem packIdFlag_testBit {id : ℕ} (h : id < 2 ^ 31) (b : Bool) :
    (packIdFlag id b).testBit 31 = b := by
  cases b with
  | false =>
    simp only [packIdFlag, Bool.false_eq_true, if_false, Nat.zero_shiftLeft, Nat.or_zero]
    exact Nat.testBit_lt_two_pow h
  | true =>
    rw [packIdFlag]
    simp only [if_true]
    rw [lor_flag_eq_add h, Nat.testBit_to_div_mod]
    have h5 : (id + 2 ^ 31) / 2 ^ 31 = 1 := by
      rw [Nat.add_div_right _ (Nat.pos_pow_of_pos 31 (by norm_num)),
        Nat.div_eq_of_lt h]
    rw [h5]
    simp

/-- A packed id with a clear flag is the plain id. -/
theorem packIdFlag_false (id : ℕ) : packIdFlag id false = id := by
  simp [packIdFlag]

/-- The packed value is below 2 ^ 32 for a 31-bit id. -/
theorem packIdFlag_lt {id : ℕ} (h : id < 2 ^ 31) (b : Bool) :
    packIdFlag id b < 2 ^ 32 := by
  cases b with
  | false =>
    simp only [packIdFlag, Bool.false_eq_true, if_false, Nat.zero_shiftLeft, Nat.or_zero]
    omega
  | true =>
    rw [packIdFlag]
    simp only [if_true]
    rw [lor_flag_eq_add h]
    norm_num at h ⊢
    omega

/-! ## Derived cell bounds, and insert decomposed into per-table folds -/

/-- The inclusive cell bounds (sx, sy, ex, ey) derived by insert and
query_radius from a position and a radius (diameter extent). -/
def radiusBounds (shift : ℕ) (p : PositionVector) (radius : ℚ) : ℕ × ℕ × ℕ × ℕ :=
  let dimensions := radius * 2
  (truncU32 p.x >>> shift, truncU32 p.y >>> shift,
    truncU32 (p.x + dimensions) >>> shift, truncU32 (p.y + dimensions) >>> shift)

/-- The inclusive cell bounds derived by query_rect from a position and
a width / height extent. -/
def rectBounds (shift : ℕ) (p : PositionVector) (width height : ℚ) : ℕ × ℕ × ℕ × ℕ :=
  (truncU32 p.x >>> shift, truncU32 p.y >>> shift,
    truncU32 (p.x + width) >>> shift, truncU32 (p.y + height) >>> shift)

/-- The visited cell list of a bounds quadruple. -/
def cellsOfBounds (b : ℕ × ℕ × ℕ × ℕ) : List (ℕ × ℕ) :=
  SpatialHashGrid.cellsOf b.1 b.2.1 b.2.2.1 b.2.2.2

/-- The is_ideal test of a bounds quadruple: start and end cells agree. -/
def idealOfBounds (b : ℕ × ℕ × ℕ × ℕ) : Bool :=
  b.1 == b.2.2.1 && b.2.1 == b.2.2.2

/-- The grid-table part of one insert loop iteration. -/
def gridPush (pk : ℕ) (t : Table Entry) (c : ℕ × ℕ) : Table Entry :=
  t.set_vector c.1 c.2 (t.get_vector c.1 c.2 ++ [pk])

/-- The maps-table part of one insert loop iteration. -/
def mapsPush (id : ℕ) (t : Table EntityMap) (c : ℕ × ℕ) : Table EntityMap :=
  t.set_scalar id (t.get_scalar id ++ [c])

/-- The grid-table effect of the whole insert loop. -/
def insertCellsGrid (pk : ℕ) (t : Table Entry) (C : List (ℕ × ℕ)) : Table Entry :=
  C.foldl (gridPush pk) t

/-- The maps-table effect of the whole insert loop. -/
def insertCellsMaps (id : ℕ) (t : Table EntityMap) (C : List (ℕ × ℕ)) : Table EntityMap :=
  C.foldl (mapsPush id) t

/-- The slot a cell coordinate addresses in a table. -/
def slotV (t : Table Entry) (c : ℕ × ℕ) : ℕ := t.index (vector_hash c.1 c.2)

/-- The interleaved insert fold is the pair of per-table folds. -/
theorem foldl_insert_pair (pk id : ℕ) (C : List (ℕ × ℕ)) :
    ∀ (t : Table Entry) (m : Table EntityMap) (sh : ℕ),
      C.foldl
        (fun g2 c =>
          { g2 with
            maps := g2.maps.set_scalar id (g2.maps.get_scalar id ++ [c])
            grid := g2.grid.set_vector c.1 c.2 (g2.grid.get_vector c.1 c.2 ++ [pk]) })
        (⟨t, m, sh⟩ : SpatialHashGrid) =
      ⟨insertCellsGrid pk t C, insertCellsMaps id m C, sh⟩ := by
  induction C with
  | nil => intro t m sh; rfl
  | cons c C ih => intro t m sh; exact ih (gridPush pk t c) (mapsPush id m c) sh

/-- SpatialHashGrid::insert, decomposed: the grid table receives the
packed id in every cell of the derived range, the maps table receives
the cell list, and the shift is untouched. -/
theorem insert_decompose (g : SpatialHashGrid) (id : ℕ) (p : PositionVector) (r : ℚ) :
    g.insert id p r =
      ⟨insertCellsGrid (packIdFlag id (idealOfBounds (radiusBounds g.shift p r)))
          g.grid (cellsOfBounds (radiusBounds g.shift p r)),
        insertCellsMaps id g.maps (cellsOfBounds (radiusBounds g.shift p r)),
        g.shift⟩ := by
  have h := foldl_insert_pair
    (packIdFlag id (idealOfBounds (radiusBounds g.shift p r))) id
    (cellsOfBounds (radiusBounds g.shift p r)) g.grid g.maps g.shift
  exact h

/-! ## Table-level lemmas about the insert folds -/

/-- Lengths are invariant under the grid push. -/
theorem gridPush_length (pk : ℕ) (t : Table Entry) (c : ℕ × ℕ) :
    (gridPush pk t c).entries.length = t.entries.length := by
  simp [gridPush, Table.set_vector]

/-- Capacity is invariant under the grid push. -/
theorem gridPush_capacity (pk : ℕ) (t : Table Entry) (c : ℕ × ℕ) :
    (gridPush pk t c).capacity = t.capacity := rfl

/-- Lengths are invariant under the whole grid fold. -/
theorem insertCellsGrid_length (pk : ℕ) (C : List (ℕ × ℕ)) :
    ∀ t : Table Entry, (insertCellsGrid pk t C).entries.length = t.entries.length := by
  induction C with
  | nil => intro t; rfl
  | cons c C ih =>
    intro t
    have hstep : insertCellsGrid pk t (c :: C) = insertCellsGrid pk (gridPush pk t c) C := rfl
    rw [hstep, ih (gridPush pk t c), gridPush_length]

/-- Capacity is invariant under the whole grid fold. -/
theorem insertCellsGrid_capacity (pk : ℕ) (C : List (ℕ × ℕ)) :
    ∀ t : Table Entry, (insertCellsGrid pk t C).capacity = t.capacity := by
  induction C with
  | nil => intro t; rfl
  | cons c C ih =>
    intro t
    have hstep : insertCellsGrid pk t (c :: C) = insertCellsGrid pk (gridPush pk t c) C := rfl
    rw [hstep, ih (gridPush pk t c), gridPush_capacity]

/-- Tables of equal entry count address every key identically. -/
theorem index_congr {T S : Type} [Inhabited T] [Inhabited S] (t : Table T) (u : Table S)
    (h : t.entries.length = u.entries.length) (k : ℕ) : t.index k = u.index k := by
  simp [Table.index, h]

/-- Slots are addressed identically in tables of equal entry count. -/
theorem slotV_congr (t u : Table Entry) (h : t.entries.length = u.entries.length)
    (c : ℕ × ℕ) : slotV t c = slotV u c := index_congr t u h _

/-- The addressed slot is in range whenever the table is nonempty. -/
theorem index_lt {T : Type} [Inhabited T] (t : Table T) (k : ℕ)
    (h : 0 < t.entries.length) : t.index k < t.entries.length :=
  Nat.mod_lt _ h

/-- Reading a slot after the grid push. -/
theorem gridPush_getD (pk : ℕ) (t : Table Entry) (c : ℕ × ℕ)
    (h : 0 < t.entries.length) (s : ℕ) :
    (gridPush pk t c).entries.getD s [] =
      if slotV t c = s then t.entries.getD s [] ++ [pk] else t.entries.getD s [] := by
  rw [gridPush, Table.set_vector]
  have hlt : t.index (vector_hash c.1 c.2) < t.entries.length := index_lt t _ h
  rw [getD_set_of_lt _ _ _ _ _ hlt, slotV]
  by_cases hc : t.index (vector_hash c.1 c.2) = s
  · rw [if_pos hc, if_pos hc, Table.get_vector, hc]
    rfl
  · rw [if_neg hc, if_neg hc]

/-- Reading any slot after the whole grid fold: the packed id is appended
once per cell of the list that addresses this slot. -/
theorem insertCellsGrid_getD (pk : ℕ) (C : List (ℕ × ℕ)) :
    ∀ t : Table Entry, 0 < t.entries.length → ∀ s,
      (insertCellsGrid pk t C).entries.getD s [] =
        t.entries.getD s [] ++
          List.replicate (C.countP fun c => slotV t c == s) pk := by
  induction C with
  | nil => intro t _ s; simp [insertCellsGrid]
  | cons c C ih =>
    intro t ht s
    have ht2 : 0 < (gridPush pk t c).entries.length := by rw [gridPush_length]; exact ht
    have hstep : insertCellsGrid pk t (c :: C) = insertCellsGrid pk (gridPush pk t c) C := rfl
    rw [hstep, ih (gridPush pk t c) ht2 s]
    have hslot : ∀ c2, slotV (gridPush pk t c) c2 = slotV t c2 :=
      fun c2 => slotV_congr _ _ (gridPush_length pk t c) c2
    have hcount : (C.countP fun c2 => slotV (gridPush pk t c) c2 == s) =
        C.countP fun c2 => slotV t c2 == s :=
      List.countP_congr fun c2 _ => by rw [hslot c2]
    rw [hcount, gridPush_getD pk t c ht s]
    by_cases hc : slotV t c = s
    · rw [if_pos hc]
      have hpc : (C.countP fun c2 => slotV t c2 == s) + 1 =
          (c :: C).countP fun c2 => slotV t c2 == s := by
        rw [List.countP_cons]
        simp [hc]
      rw [List.append_assoc, ← hpc, List.singleton_append, ← List.replicate_succ]
    · rw [if_neg hc]
      have hpc : (C.countP fun c2 => slotV t c2 == s) =
          (c :: C).countP fun c2 => slotV t c2 == s := by
        rw [List.countP_cons]
        simp [hc]
      rw [hpc]

/-! ## Maps-table characterization and table extensionality -/

/-- Setting a position of a list to the value it already holds. -/
theorem set_getD_self {α : Type} (l : List α) (i : ℕ) (d : α) (hi : i < l.length) :
    l.set i (l.getD i d) = l := by
  apply List.ext_getElem (by simp)
  intro n h1 h2
  rw [List.getElem_set]
  by_cases hin : i = n
  · subst hin
    rw [if_pos rfl, List.getD_eq_getElem _ _ hi]
  · rw [if_neg hin]

/-- Tables with equal capacity and pointwise equal slots are equal. -/
theorem table_ext {T : Type} [Inhabited T] (t1 t2 : Table T) (d : T)
    (hcap : t1.capacity = t2.capacity) (hlen : t1.entries.length = t2.entries.length)
    (h : ∀ s, t1.entries.getD s d = t2.entries.getD s d) : t1 = t2 := by
  cases t1
  cases t2
  rw [Table.mk.injEq]
  exact ⟨list_ext_getD _ _ d hlen h, hcap⟩

/-- Reading back the slot just written through set_scalar. -/
theorem get_scalar_set_scalar {T : Type} [Inhabited T] (m : Table T) (id : ℕ) (v : T)
    (hm : 0 < m.entries.length) : (m.set_scalar id v).get_scalar id = v := by
  have hi : hash_u64 (hash_u64 id) % m.entries.length < m.entries.length := Nat.mod_lt _ hm
  simp only [Table.get_scalar, Table.set_scalar, Table.index, List.length_set]
  rw [getD_set_of_lt _ _ _ _ _ hi, if_pos rfl]

/-- Lengths are invariant under the maps push. -/
theorem mapsPush_length (id : ℕ) (m : Table EntityMap) (c : ℕ × ℕ) :
    (mapsPush id m c).entries.length = m.entries.length := by
  simp [mapsPush, Table.set_scalar]

/-- Capacity is invariant under the maps push. -/
theorem mapsPush_capacity (id : ℕ) (m : Table EntityMap) (c : ℕ × ℕ) :
    (mapsPush id m c).capacity = m.capacity := rfl

/-- The whole maps fold writes the occupancy slot once, appending the
cell list, and leaves all other slots unchanged. -/
theorem insertCellsMaps_entries (id : ℕ) (C : List (ℕ × ℕ)) :
    ∀ m : Table EntityMap, 0 < m.entries.length →
      (insertCellsMaps id m C).entries =
        m.entries.set (m.index (hash_u64 id)) (m.get_scalar id ++ C) := by
  induction C with
  | nil =>
    intro m hm
    have hidx : m.index (hash_u64 id) < m.entries.length := index_lt m _ hm
    have hback : m.get_scalar id ++ ([] : List (ℕ × ℕ)) =
        m.entries.getD (m.index (hash_u64 id)) default := by
      rw [List.append_nil, Table.get_scalar]
    rw [hback, set_getD_self _ _ _ hidx]
    rfl
  | cons c C ih =>
    intro m hm
    have hm2 : 0 < (mapsPush id m c).entries.length := by
      rw [mapsPush_length]
      exact hm
    have hstep : insertCellsMaps id m (c :: C) = insertCellsMaps id (mapsPush id m c) C := rfl
    rw [hstep, ih _ hm2]
    have hidx : (mapsPush id m c).index (hash_u64 id) = m.index (hash_u64 id) :=
      index_congr _ _ (mapsPush_length id m c) _
    have hget : (mapsPush id m c).get_scalar id = m.get_scalar id ++ [c] :=
      get_scalar_set_scalar m id _ hm
    rw [hidx, hget]
    simp only [mapsPush, Table.set_scalar]
    rw [List.set_set, List.append_assoc, List.singleton_append]

/-- Lengths are invariant under the whole maps fold. -/
theorem insertCellsMaps_length (id : ℕ) (C : List (ℕ × ℕ)) :
    ∀ m : Table EntityMap, (insertCellsMaps id m C).entries.length = m.entries.length := by
  induction C with
  | nil => intro m; rfl
  | cons c C ih =>
    intro m
    have hstep : insertCellsMaps id m (c :: C) = insertCellsMaps id (mapsPush id m c) C := rfl
    rw [hstep, ih (mapsPush id m c), mapsPush_length]

/-- Capacity is invariant under the whole maps fold. -/
theorem insertCellsMaps_capacity (id : ℕ) (C : List (ℕ × ℕ)) :
    ∀ m : Table EntityMap, (insertCellsMaps id m C).capacity = m.capacity := by
  induction C with
  | nil => intro m; rfl
  | cons c C ih =>
    intro m
    have hstep : insertCellsMaps id m (c :: C) = insertCellsMaps id (mapsPush id m c) C := rfl
    rw [hstep, ih (mapsPush id m c), mapsPush_capacity]

/-! ## Delete undoes insert on the grid table -/

/-- Running the delete loop over exactly the inserted cell list removes
exactly the newly appended packed ids, returning the original table,
provided the original table held no value unpacking to the id. -/
theorem deleteFromCells_insertCellsGrid (id pk : ℕ) (hpk : pk % 2 ^ 31 = id)
    (C : List (ℕ × ℕ)) :
    ∀ t : Table Entry, 0 < t.entries.length →
      (∀ s, ∀ v ∈ t.entries.getD s [], v % 2 ^ 31 ≠ id) →
      SpatialHashGrid.deleteFromCells id (insertCellsGrid pk t C) C = some t := by
  induction C with
  | nil => intro t _ _; rfl
  | cons c C ih =>
    intro t ht hent
    have ht2 : 0 < (gridPush pk t c).entries.length := by
      rw [gridPush_length]
      exact ht
    have hTdef : insertCellsGrid pk t (c :: C) = insertCellsGrid pk (gridPush pk t c) C := rfl
    have hlenT : (insertCellsGrid pk (gridPush pk t c) C).entries.length =
        t.entries.length := by
      rw [insertCellsGrid_length, gridPush_length]
    have hslotT : slotV (insertCellsGrid pk (gridPush pk t c) C) c = slotV t c :=
      slotV_congr _ _ hlenT c
    have hbucket : (insertCellsGrid pk (gridPush pk t c) C).get_vector c.1 c.2 =
        t.entries.getD (slotV t c) [] ++
          pk :: List.replicate (C.countP fun c2 => slotV t c2 == slotV t c) pk := by
      have h1 : (insertCellsGrid pk (gridPush pk t c) C).get_vector c.1 c.2 =
          (insertCellsGrid pk (gridPush pk t c) C).entries.getD (slotV t c) [] := by
        rw [Table.get_vector, ← hslotT]
        rfl
      rw [h1, insertCellsGrid_getD pk C (gridPush pk t c) ht2 (slotV t c)]
      have hcongr : (C.countP fun c2 => slotV (gridPush pk t c) c2 == slotV t c) =
          C.countP fun c2 => slotV t c2 == slotV t c :=
        List.countP_congr fun c2 _ => by rw [slotV_congr _ _ (gridPush_length pk t c) c2]
      rw [hcongr, gridPush_getD pk t c ht (slotV t c), if_pos rfl,
        List.append_assoc, List.singleton_append]
    have hfind : ((insertCellsGrid pk (gridPush pk t c) C).get_vector c.1 c.2).findIdx?
        (fun v => v % 2 ^ 31 == id) = some (t.entries.getD (slotV t c) []).length := by
      rw [hbucket]
      apply findIdx_eq_length_of_first
      · intro u hu
        exact beq_eq_false_iff_ne.mpr (hent (slotV t c) u hu)
      · rw [hpk]
        exact beq_self_eq_true id
    have herase : ((insertCellsGrid pk (gridPush pk t c) C).get_vector c.1 c.2).eraseIdx
        (t.entries.getD (slotV t c) []).length =
        t.entries.getD (slotV t c) [] ++
          List.replicate (C.countP fun c2 => slotV t c2 == slotV t c) pk := by
      rw [hbucket, eraseIdx_at_length]
    have hrestore : (insertCellsGrid pk (gridPush pk t c) C).set_vector c.1 c.2
        (t.entries.getD (slotV t c) [] ++
          List.replicate (C.countP fun c2 => slotV t c2 == slotV t c) pk) =
        insertCellsGrid pk t C := by
      apply table_ext _ _ ([] : Entry)
      · show (insertCellsGrid pk (gridPush pk t c) C).capacity = _
        rw [insertCellsGrid_capacity, gridPush_capacity, insertCellsGrid_capacity]
      · show ((insertCellsGrid pk (gridPush pk t c) C).entries.set _ _).length = _
        rw [List.length_set, hlenT, insertCellsGrid_length]
      · intro s
        have hidxT : (insertCellsGrid pk (gridPush pk t c) C).index
            (vector_hash c.1 c.2) = slotV t c := hslotT
        show ((insertCellsGrid pk (gridPush pk t c) C).entries.set
            ((insertCellsGrid pk (gridPush pk t c) C).index (vector_hash c.1 c.2)) _).getD
            s [] = _
        rw [hidxT]
        have hlt : slotV t c <
            (insertCellsGrid pk (gridPush pk t c) C).entries.length := by
          rw [hlenT]
          exact index_lt t _ ht
        rw [getD_set_of_lt _ _ _ _ _ hlt]
        rw [insertCellsGrid_getD pk C t ht s]
        by_cases hcs : slotV t c = s
        · rw [if_pos hcs, ← hcs]
        · rw [if_neg hcs]
          rw [insertCellsGrid_getD pk C (gridPush pk t c) ht2 s]
          have hcongr2 : (C.countP fun c2 => slotV (gridPush pk t c) c2 == s) =
              C.countP fun c2 => slotV t c2 == s :=
            List.countP_congr fun c2 _ => by
              rw [slotV_congr _ _ (gridPush_length pk t c) c2]
          rw [hcongr2, gridPush_getD pk t c ht s, if_neg hcs]
    rw [hTdef]
    show (match ((insertCellsGrid pk (gridPush pk t c) C).get_vector c.1 c.2).findIdx?
        (fun v => v % 2 ^ 31 == id) with
      | none => none
      | some i =>
        SpatialHashGrid.deleteFromCells id ((insertCellsGrid pk (gridPush pk t c) C).set_vector c.1 c.2
          (((insertCellsGrid pk (gridPush pk t c) C).get_vector c.1 c.2).eraseIdx i)) C) =
      some t
    rw [hfind]
    show SpatialHashGrid.deleteFromCells id ((insertCellsGrid pk (gridPush pk t c) C).set_vector c.1 c.2
        (((insertCellsGrid pk (gridPush pk t c) C).get_vector c.1 c.2).eraseIdx
          (t.entries.getD (slotV t c) []).length)) C = some t
    rw [herase, hrestore]
    exact ih t ht hent

/-! ## Properties of the visited cell list -/

/-- Membership in the visited cell list is exactly membership in the
inclusive coordinate ranges. -/
theorem mem_cellsOf (sx sy ex ey : ℕ) (c : ℕ × ℕ) :
    c ∈ SpatialHashGrid.cellsOf sx sy ex ey ↔
      (sx ≤ c.1 ∧ c.1 ≤ ex) ∧ (sy ≤ c.2 ∧ c.2 ≤ ey) := by
  cases c with
  | mk cx cy =>
    rw [SpatialHashGrid.cellsOf, List.mem_flatMap]
    constructor
    · rintro ⟨y, hy, hmem⟩
      rw [List.mem_map] at hmem
      obtain ⟨x, hx, hxy⟩ := hmem
      rw [List.mem_range'_1] at hy hx
      cases hxy
      exact ⟨⟨hx.1, by omega⟩, ⟨hy.1, by omega⟩⟩
    · rintro ⟨⟨h1, h2⟩, ⟨h3, h4⟩⟩
      refine ⟨cy, ?_, ?_⟩
      · rw [List.mem_range'_1]
        omega
      · rw [List.mem_map]
        refine ⟨cx, ?_, rfl⟩
        rw [List.mem_range'_1]
        omega

/-- The visited cell list never repeats a cell. -/
theorem cellsOf_nodup (sx sy ex ey : ℕ) : (SpatialHashGrid.cellsOf sx sy ex ey).Nodup := by
  rw [SpatialHashGrid.cellsOf]
  have hxs : (List.range' sx (ex + 1 - sx)).Nodup := List.nodup_range' sx _
  have hys : (List.range' sy (ey + 1 - sy)).Nodup := List.nodup_range' sy _
  revert hys
  induction List.range' sy (ey + 1 - sy) with
  | nil => intro _; simp
  | cons y ys ih =>
    intro hys
    rw [List.nodup_cons] at hys
    rw [List.flatMap_cons]
    apply List.Nodup.append
    · apply hxs.map
      intro a b hab
      exact congrArg Prod.fst hab
    · exact ih hys.2
    · intro p hp1 hp2
      rw [List.mem_map] at hp1
      obtain ⟨x, _, hx2⟩ := hp1
      rw [List.mem_flatMap] at hp2
      obtain ⟨y2, hy2, hp3⟩ := hp2
      rw [List.mem_map] at hp3
      obtain ⟨x2, _, hx3⟩ := hp3
      apply hys.1
      have : y2 = y := by
        have e1 : p.2 = y := by rw [← hx2]
        have e2 : p.2 = y2 := by rw [← hx3]
        omega
      rwa [← this]

/-- A coinciding start and end cell visits exactly that one cell. -/
theorem cellsOf_singleton (a b : ℕ) : SpatialHashGrid.cellsOf a b a b = [(a, b)] := by
  rw [SpatialHashGrid.cellsOf]
  have h1 : a + 1 - a = 1 := by omega
  have h2 : b + 1 - b = 1 := by omega
  rw [h1, h2]
  rfl

/-- An empty visited cell list forces an inverted coordinate range. -/
theorem cellsOf_ne_nil (sx sy ex ey : ℕ) (hx : sx ≤ ex) (hy : sy ≤ ey) :
    SpatialHashGrid.cellsOf sx sy ex ey ≠ [] := by
  intro hnil
  have : (sx, sy) ∈ SpatialHashGrid.cellsOf sx sy ex ey := by
    rw [mem_cellsOf]
    omega
  rw [hnil] at this
  exact absurd this (List.not_mem_nil _)

/-- A nonempty visited cell list forces ordered coordinate ranges. -/
theorem cellsOf_nonempty_bounds (sx sy ex ey : ℕ)
    (h : SpatialHashGrid.cellsOf sx sy ex ey ≠ []) : sx ≤ ex ∧ sy ≤ ey := by
  by_contra hcon
  apply h
  rw [SpatialHashGrid.cellsOf]
  rcases Nat.lt_or_ge ex sx with hlt | hge
  · have hzero : ex + 1 - sx = 0 := by omega
    rw [hzero]
    simp [List.range']
  · have hlty : ey < sy := by omega
    have hzero : ey + 1 - sy = 0 := by omega
    rw [hzero]
    rfl

/-! ## Counting a target id through the query fold -/

/-- The query loop body with its Bool tests rephrased as propositions. -/
theorem queryStep_eq (ideal : Bool) (eid : ℕ) (res : List ℕ) (v : ℕ) :
    SpatialHashGrid.queryStep ideal eid res v =
      if v % 2 ^ 31 = eid then res
      else if v.testBit 31 = true ∨ ideal = true then res ++ [v % 2 ^ 31]
      else if v ∉ res ∧ v ≠ eid then res ++ [v]
      else res := by
  rw [SpatialHashGrid.queryStep]
  by_cases h1 : v % 2 ^ 31 = eid
  · rw [if_pos h1, if_pos (beq_iff_eq.mpr h1)]
  · rw [if_neg h1, if_neg (by simpa using h1)]
    by_cases h2 : v.testBit 31 = true ∨ ideal = true
    · rw [if_pos h2, if_pos (by simpa using h2)]
    · rw [if_neg h2, if_neg (by simpa using h2)]
      by_cases h3 : v ∉ res ∧ v ≠ eid
      · rw [if_pos h3, if_pos]
        have hc : res.contains v = false := by
          cases hcv : res.contains v with
          | false => rfl
          | true => exact absurd (List.elem_iff.mp hcv) h3.1
        rw [hc]
        simp [bne_iff_ne, h3.2]
      · rw [if_neg h3, if_neg]
        intro hcon
        simp only [Bool.and_eq_true, Bool.not_eq_true', bne_iff_ne] at hcon
        apply h3
        refine ⟨?_, hcon.2⟩
        intro hm
        have h4 : res.contains v = true := List.elem_iff.mpr hm
        rw [hcon.1] at h4
        exact absurd h4 (by simp)

/-- Counting a flagged target through the query fold: every encounter of
the packed value appends one occurrence of the unpacked id. -/
theorem foldl_queryStep_count_flag (ideal : Bool) (eid b pb : ℕ) (hb : b < 2 ^ 31)
    (hne : b ≠ eid) (hpb : pb % 2 ^ 31 = b) (hflag : pb.testBit 31 = true) :
    ∀ (S : List ℕ) (res : List ℕ), (∀ v ∈ S, v % 2 ^ 31 = b → v = pb) →
      (S.foldl (SpatialHashGrid.queryStep ideal eid) res).count b =
        res.count b + S.count pb := by
  intro S
  induction S with
  | nil => intro res _; simp
  | cons v S ih =>
    intro res hall
    have hall2 : ∀ w ∈ S, w % 2 ^ 31 = b → w = pb := fun w hw => hall w (by simp [hw])
    rw [List.foldl_cons, ih _ hall2, List.count_cons]
    rw [queryStep_eq]
    by_cases h1 : v % 2 ^ 31 = eid
    · rw [if_pos h1]
      have hvpb : (v == pb) = false := by
        rw [beq_eq_false_iff_ne]
        intro hv
        rw [hv, hpb] at h1
        exact hne h1
      rw [hvpb]
      simp
    · rw [if_neg h1]
      by_cases hvb : v % 2 ^ 31 = b
      · have hv : v = pb := hall v (by simp) hvb
        subst hv
        rw [if_pos (Or.inl hflag)]
        rw [List.count_append, beq_self_eq_true]
        have hc1 : List.count b [v % 2 ^ 31] = 1 := by
          rw [hpb, List.count_cons, List.count_nil, beq_self_eq_true]
          simp
        rw [hc1]
        simp
        omega
      · have hvpb : (v == pb) = false := by
          rw [beq_eq_false_iff_ne]
          intro hv
          rw [hv] at hvb
          exact hvb hpb
        rw [hvpb]
        by_cases h2 : v.testBit 31 = true ∨ ideal = true
        · rw [if_pos h2, List.count_append]
          have hc0 : List.count b [v % 2 ^ 31] = 0 := by
            rw [List.count_cons, List.count_nil,
              beq_eq_false_iff_ne.mpr fun hc => hvb (by rw [hc])]
            simp
          rw [hc0]
          simp
        · rw [if_neg h2]
          by_cases h3 : v ∉ res ∧ v ≠ eid
          · rw [if_pos h3, List.count_append]
            have hvb2 : (v == b) = false := by
              rw [beq_eq_false_iff_ne]
              intro hv
              rw [hv] at hvb
              exact hvb (Nat.mod_eq_of_lt hb)
            have hc0 : List.count b [v] = 0 := by
              rw [List.count_cons, List.count_nil, hvb2]
              simp
            rw [hc0]
            simp
          · rw [if_neg h3]
            simp

/-- Counting an unflagged target already in the accumulator: the
de-duplication scan blocks every further push of it. -/
theorem foldl_queryStep_count_mem (eid b : ℕ) (hb : b < 2 ^ 31) :
    ∀ (S : List ℕ) (res : List ℕ), b ∈ res →
      (∀ v ∈ S, v % 2 ^ 31 = b → v = b) →
      (S.foldl (SpatialHashGrid.queryStep false eid) res).count b = res.count b := by
  intro S
  induction S with
  | nil => intro res _ _; rfl
  | cons v S ih =>
    intro res hmem hall
    have hall2 : ∀ w ∈ S, w % 2 ^ 31 = b → w = b := fun w hw => hall w (by simp [hw])
    rw [List.foldl_cons]
    have hbb : b % 2 ^ 31 = b := Nat.mod_eq_of_lt hb
    rw [queryStep_eq]
    by_cases h1 : v % 2 ^ 31 = eid
    · rw [if_pos h1]
      exact ih res hmem hall2
    · rw [if_neg h1]
      by_cases hvb : v % 2 ^ 31 = b
      · have hv : v = b := hall v (by simp) hvb
        subst hv
        have hfl : v.testBit 31 = false := Nat.testBit_lt_two_pow hb
        rw [if_neg (by simp [hfl]), if_neg (by simp [hmem])]
        exact ih res hmem hall2
      · by_cases h2 : v.testBit 31 = true ∨ (false : Bool) = true
        · rw [if_pos h2]
          have hcount : (res ++ [v % 2 ^ 31]).count b = res.count b := by
            rw [List.count_append, List.count_cons, List.count_nil,
              beq_eq_false_iff_ne.mpr fun hc => hvb (by rw [hc])]
            simp
          rw [ih _ (by simp [hmem]) hall2, hcount]
        · rw [if_neg h2]
          by_cases h3 : v ∉ res ∧ v ≠ eid
          · rw [if_pos h3]
            have hvb2 : (v == b) = false := by
              rw [beq_eq_false_iff_ne]
              intro hc
              rw [hc] at hvb
              exact hvb hbb
            have hcount : (res ++ [v]).count b = res.count b := by
              rw [List.count_append, List.count_cons, List.count_nil, hvb2]
              simp
            rw [ih _ (by simp [hmem]) hall2, hcount]
          · rw [if_neg h3]
            exact ih res hmem hall2

/-- Counting an unflagged target not yet in the accumulator through a
non-ideal probe: exactly one occurrence is appended when the stream
holds the target at all. -/
theorem foldl_queryStep_count_first (eid b : ℕ) (hb : b < 2 ^ 31) (hne : b ≠ eid) :
    ∀ (S : List ℕ) (res : List ℕ), b ∉ res →
      (∀ v ∈ S, v % 2 ^ 31 = b → v = b) →
      (S.foldl (SpatialHashGrid.queryStep false eid) res).count b =
        if b ∈ S then 1 else 0 := by
  intro S
  induction S with
  | nil =>
    intro res hmem _
    simp [List.count_eq_zero.mpr hmem]
  | cons v S ih =>
    intro res hmem hall
    have hall2 : ∀ w ∈ S, w % 2 ^ 31 = b → w = b := fun w hw => hall w (by simp [hw])
    have hbb : b % 2 ^ 31 = b := Nat.mod_eq_of_lt hb
    rw [List.foldl_cons, queryStep_eq]
    by_cases h1 : v % 2 ^ 31 = eid
    · have hvnb : v ≠ b := by
        intro hc
        rw [hc, hbb] at h1
        exact hne h1
      have hiff : b ∈ v :: S ↔ b ∈ S := by
        rw [List.mem_cons]
        constructor
        · rintro (hc | hc)
          · exact absurd hc.symm hvnb
          · exact hc
        · exact Or.inr
      rw [if_pos h1, ih res hmem hall2, if_congr hiff rfl rfl]
    · rw [if_neg h1]
      by_cases hvb : v % 2 ^ 31 = b
      · have hv : v = b := hall v (by simp) hvb
        subst hv
        have hfl : v.testBit 31 = false := Nat.testBit_lt_two_pow hb
        have h3p : v ∉ res ∧ v ≠ eid := ⟨hmem, hne⟩
        rw [if_neg (by simp [hfl]), if_pos h3p]
        have hcount : (res ++ [v]).count v = res.count v + 1 := by
          rw [List.count_append, List.count_cons, List.count_nil, beq_self_eq_true]
          simp
        rw [foldl_queryStep_count_mem eid v hb S _ (by simp) hall2, hcount,
          List.count_eq_zero.mpr hmem]
        simp
      · have hvnb : v ≠ b := by
          intro hc
          rw [hc] at hvb
          exact hvb hbb
        have hsplit : b ∈ v :: S ↔ b ∈ S := by
          rw [List.mem_cons]
          constructor
          · rintro (hc | hc)
            · exact absurd hc.symm hvnb
            · exact hc
          · exact Or.inr
        by_cases h2 : v.testBit 31 = true ∨ (false : Bool) = true
        · rw [if_pos h2]
          have hmem2 : b ∉ res ++ [v % 2 ^ 31] := by
            intro hc
            rcases List.mem_append.mp hc with hc2 | hc2
            · exact hmem hc2
            · rw [List.mem_singleton] at hc2
              exact hvb (by rw [← hc2])
          rw [ih _ hmem2 hall2, if_congr hsplit rfl rfl]
        · rw [if_neg h2]
          by_cases h3 : v ∉ res ∧ v ≠ eid
          · rw [if_pos h3]
            have hmem2 : b ∉ res ++ [v] := by
              intro hc
              rcases List.mem_append.mp hc with hc2 | hc2
              · exact hmem hc2
              · rw [List.mem_singleton] at hc2
                exact hvnb hc2.symm
            rw [ih _ hmem2 hall2, if_congr hsplit rfl rfl]
          · rw [if_neg h3]
            rw [ih res hmem hall2, if_congr hsplit rfl rfl]

/-! ## Summing slot counts across the probed cells -/

/-- countP as a sum of indicator values. -/
theorem countP_eq_sum_map {α : Type} (p : α → Bool) (l : List α) :
    l.countP p = (l.map fun a => if p a then 1 else 0).sum := by
  induction l with
  | nil => rfl
  | cons a l ih =>
    rw [List.countP_cons, List.map_cons, List.sum_cons, ih]
    omega

/-- Sums of pointwise added maps split. -/
theorem sum_map_add {α : Type} (l : List α) (f g : α → ℕ) :
    (l.map fun a => f a + g a).sum = (l.map f).sum + (l.map g).sum := by
  induction l with
  | nil => rfl
  | cons a l ih =>
    rw [List.map_cons, List.sum_cons, ih, List.map_cons, List.sum_cons,
      List.map_cons, List.sum_cons]
    omega

/-- Count of an element occurring in a duplicate-free list. -/
theorem count_eq_one_of_nodup_mem {α : Type} [BEq α] [LawfulBEq α] {a : α} {l : List α}
    (hl : l.Nodup) (ha : a ∈ l) : l.count a = 1 := by
  induction l with
  | nil => cases ha
  | cons x l ih =>
    rw [List.count_cons]
    rw [List.nodup_cons] at hl
    rcases List.mem_cons.mp ha with rfl | hmem
    · rw [beq_self_eq_true, List.count_eq_zero.mpr hl.1]
      simp
    · have hxa : (x == a) = false := by
        rw [beq_eq_false_iff_ne]
        intro hc
        rw [hc] at hl
        exact hl.1 hmem
      rw [ih hl.2 hmem, hxa]
      simp

/-- Over a duplicate-free list containing every element of CB, the counts
of each element of the list within CB sum to the length of CB. -/
theorem sum_count_over_nodup (P : List (ℕ × ℕ)) (hP : P.Nodup) :
    ∀ CB : List (ℕ × ℕ), (∀ c ∈ CB, c ∈ P) →
      (P.map fun c => CB.count c).sum = CB.length := by
  intro CB
  induction CB with
  | nil => intro _; simp
  | cons d CB ih =>
    intro hsub
    have h1 : (P.map fun c => (d :: CB).count c) =
        P.map fun c => CB.count c + if (d == c) = true then 1 else 0 :=
      List.map_congr_left fun c _ => List.count_cons c d CB
    rw [h1, sum_map_add]
    have h2 : (P.map fun c => if (d == c) = true then 1 else 0).sum = P.count d := by
      rw [← countP_eq_sum_map]
      rw [List.count]
      apply List.countP_congr
      intro c _
      rw [beq_iff_eq, beq_iff_eq]
      exact eq_comm
    rw [h2, ih fun c hc => hsub c (by simp [hc]),
      count_eq_one_of_nodup_mem hP (hsub d (by simp))]
    simp

/-- The total number of occurrences of a packed value across the visited
stream, when every probed cell addresses its own slot and the per-slot
occurrence counts agree with the cell list CB of the stored entity. -/
theorem stream_count_eq (gridT : Table Entry) (P CB : List (ℕ × ℕ)) (pb : ℕ)
    (hlen : 0 < gridT.entries.length)
    (hP : P.Nodup)
    (hsub : ∀ c ∈ CB, c ∈ P)
    (hinj : ∀ c ∈ P, ∀ c2 ∈ P, slotV gridT c = slotV gridT c2 → c = c2)
    (hstate : ∀ s < gridT.entries.length,
      (gridT.entries.getD s []).count pb = CB.countP fun c2 => slotV gridT c2 == s) :
    (P.flatMap fun c => gridT.get_vector c.1 c.2).count pb = CB.length := by
  rw [List.flatMap_def, List.count_flatten, List.map_map]
  have h1 : ∀ c ∈ P, (List.count pb ∘ fun c => gridT.get_vector c.1 c.2) c =
      CB.count c := by
    intro c hc
    show (gridT.get_vector c.1 c.2).count pb = CB.count c
    have hslot : gridT.get_vector c.1 c.2 = gridT.entries.getD (slotV gridT c) [] := rfl
    rw [hslot, hstate (slotV gridT c) (index_lt gridT _ hlen)]
    rw [List.count]
    apply List.countP_congr
    intro c2 hc2
    rw [beq_iff_eq, beq_iff_eq]
    constructor
    · intro hs
      exact hinj c2 (hsub c2 hc2) c hc hs
    · intro hs
      rw [hs]
  rw [List.map_congr_left h1]
  exact sum_count_over_nodup P hP CB hsub

/-- Core counting fact: a query over probe bounds whose cells address
pairwise distinct slots returns the id of a stored entity exactly once,
when the grid holds that entity exactly as one insert left it (its
packed id occurring per slot as often as its cell list addresses the
slot, and no other stored value unpacking to its id). -/
theorem queryCells_count_entity (gridT : Table Entry) (eid b : ℕ)
    (psx psy pex pey bsx bsy bex bey : ℕ)
    (hb : b < 2 ^ 31) (hne : b ≠ eid)
    (hlen : 0 < gridT.entries.length)
    (hCBne : SpatialHashGrid.cellsOf bsx bsy bex bey ≠ [])
    (hsub : ∀ c ∈ SpatialHashGrid.cellsOf bsx bsy bex bey,
      c ∈ SpatialHashGrid.cellsOf psx psy pex pey)
    (hinj : ∀ c ∈ SpatialHashGrid.cellsOf psx psy pex pey,
      ∀ c2 ∈ SpatialHashGrid.cellsOf psx psy pex pey,
        slotV gridT c = slotV gridT c2 → c = c2)
    (hstate : ∀ s < gridT.entries.length,
      (gridT.entries.getD s []).count (packIdFlag b (bsx == bex && bsy == bey)) =
        (SpatialHashGrid.cellsOf bsx bsy bex bey).countP fun c2 => slotV gridT c2 == s)
    (hpure : ∀ s < gridT.entries.length, ∀ v ∈ gridT.entries.getD s [],
      v % 2 ^ 31 = b → v = packIdFlag b (bsx == bex && bsy == bey)) :
    (SpatialHashGrid.queryCells gridT eid psx psy pex pey).count b = 1 := by
  have hquery : SpatialHashGrid.queryCells gridT eid psx psy pex pey =
      ((SpatialHashGrid.cellsOf psx psy pex pey).flatMap fun c =>
        gridT.get_vector c.1 c.2).foldl
        (SpatialHashGrid.queryStep (psx == pex && psy == pey) eid) [] := rfl
  have hallS : ∀ v ∈ (SpatialHashGrid.cellsOf psx psy pex pey).flatMap fun c =>
      gridT.get_vector c.1 c.2, v % 2 ^ 31 = b →
      v = packIdFlag b (bsx == bex && bsy == bey) := by
    intro v hv hvb
    rw [List.mem_flatMap] at hv
    obtain ⟨c, _, hvc⟩ := hv
    have hvc2 : v ∈ gridT.entries.getD (slotV gridT c) [] := hvc
    exact hpure (slotV gridT c) (index_lt gridT _ hlen) v hvc2 hvb
  have hScount : ((SpatialHashGrid.cellsOf psx psy pex pey).flatMap fun c =>
      gridT.get_vector c.1 c.2).count (packIdFlag b (bsx == bex && bsy == bey)) =
      (SpatialHashGrid.cellsOf bsx bsy bex bey).length :=
    stream_count_eq gridT _ _ _ hlen (cellsOf_nodup psx psy pex pey) hsub hinj hstate
  by_cases hid : (bsx == bex && bsy == bey) = true
  · -- the stored entity is ideal: it occupies exactly one cell
    have hbx : bsx = bex := by
      have := (Bool.and_eq_true _ _).mp hid
      exact beq_iff_eq.mp this.1
    have hby : bsy = bey := by
      have := (Bool.and_eq_true _ _).mp hid
      exact beq_iff_eq.mp this.2
    have hCB1 : (SpatialHashGrid.cellsOf bsx bsy bex bey).length = 1 := by
      rw [← hbx, ← hby, cellsOf_singleton]
      rfl
    rw [hquery, foldl_queryStep_count_flag _ eid b
      (packIdFlag b (bsx == bex && bsy == bey)) hb hne
      (packIdFlag_mod hb _) (by rw [hid, packIdFlag_testBit hb]) _ [] hallS]
    rw [List.count_nil, hScount, hCB1]
  · -- the stored entity spans several cells and carries no flag
    have hidf : (bsx == bex && bsy == bey) = false := Bool.eq_false_iff.mpr hid
    have hpbb : packIdFlag b (bsx == bex && bsy == bey) = b := by
      rw [hidf, packIdFlag_false]
    -- CB contains two distinct cells
    have hbounds := cellsOf_nonempty_bounds _ _ _ _ hCBne
    have hnotboth : ¬(bsx = bex ∧ bsy = bey) := by
      intro hc
      rw [hc.1, hc.2] at hidf
      simp at hidf
    have htwo : ∃ c1 c2, c1 ∈ SpatialHashGrid.cellsOf bsx bsy bex bey ∧
        c2 ∈ SpatialHashGrid.cellsOf bsx bsy bex bey ∧ c1 ≠ c2 := by
      rcases Nat.lt_or_ge bsx bex with hlt | hge
      · refine ⟨(bsx, bsy), (bex, bsy), ?_, ?_, ?_⟩
        · rw [mem_cellsOf]; omega
        · rw [mem_cellsOf]; omega
        · intro hc
          have : bsx = bex := congrArg Prod.fst hc
          omega
      · have hlty : bsy < bey := by
          rcases Nat.lt_or_ge bsy bey with h | h
          · exact h
          · exact absurd ⟨by omega, by omega⟩ hnotboth
        refine ⟨(bsx, bsy), (bsx, bey), ?_, ?_, ?_⟩
        · rw [mem_cellsOf]; omega
        · rw [mem_cellsOf]; omega
        · intro hc
          have : bsy = bey := congrArg Prod.snd hc
          omega
    -- hence the probe cannot be single-cell
    have hprobe : (psx == pex && psy == pey) = false := by
      cases hval : (psx == pex && psy == pey) with
      | false => rfl
      | true =>
        obtain ⟨c1, c2, hc1, hc2, hc12⟩ := htwo
        have hpx : psx = pex := beq_iff_eq.mp ((Bool.and_eq_true _ _).mp hval).1
        have hpy : psy = pey := beq_iff_eq.mp ((Bool.and_eq_true _ _).mp hval).2
        have hP1 : SpatialHashGrid.cellsOf psx psy pex pey = [(psx, psy)] := by
          rw [← hpx, ← hpy, cellsOf_singleton]
        have e1 := hsub c1 hc1
        have e2 := hsub c2 hc2
        rw [hP1, List.mem_singleton] at e1 e2
        exact absurd (e1.trans e2.symm) hc12
    have hallS2 : ∀ v ∈ (SpatialHashGrid.cellsOf psx psy pex pey).flatMap fun c =>
        gridT.get_vector c.1 c.2, v % 2 ^ 31 = b → v = b := by
      intro v hv hvb
      rw [← hpbb]
      exact hallS v hv hvb
    have hlen1 : 0 < (SpatialHashGrid.cellsOf bsx bsy bex bey).length :=
      List.length_pos.mpr hCBne
    have hmemS : b ∈ (SpatialHashGrid.cellsOf psx psy pex pey).flatMap fun c =>
        gridT.get_vector c.1 c.2 := by
      apply List.count_pos_iff.mp
      rw [← hpbb, hScount]
      exact hlen1
    rw [hquery, hprobe, foldl_queryStep_count_first eid b hb hne _ []
      (List.not_mem_nil b) hallS2, if_pos hmemS]

/-! ## Query output bound, cleared-grid queries, table size invariants -/

/-- A u32 value with bit 31 clear lies below 2 ^ 31. -/
theorem lt_two_pow_31_of_testBit_false {v : ℕ} (hv : v < 2 ^ 32)
    (hbit : v.testBit 31 = false) : v < 2 ^ 31 := by
  rw [Nat.testBit_to_div_mod] at hbit
  have h1 : ¬(v / 2 ^ 31 % 2 = 1) := by simpa using hbit
  norm_num at hv h1 ⊢
  omega

/-- Every value the query fold returns is below 2 ^ 31, as long as the
stream holds only u32 values. -/
theorem foldl_queryStep_lt (ideal : Bool) (eid : ℕ) :
    ∀ (S : List ℕ) (res : List ℕ), (∀ v ∈ S, v < 2 ^ 32) →
      (∀ u ∈ res, u < 2 ^ 31) →
      ∀ u ∈ S.foldl (SpatialHashGrid.queryStep ideal eid) res, u < 2 ^ 31 := by
  intro S
  induction S with
  | nil => intro res _ hres u hu; exact hres u hu
  | cons v S ih =>
    intro res hS hres u hu
    rw [List.foldl_cons, queryStep_eq] at hu
    have hS2 : ∀ w ∈ S, w < 2 ^ 32 := fun w hw => hS w (by simp [hw])
    by_cases h1 : v % 2 ^ 31 = eid
    · rw [if_pos h1] at hu
      exact ih res hS2 hres u hu
    · rw [if_neg h1] at hu
      by_cases h2 : v.testBit 31 = true ∨ ideal = true
      · rw [if_pos h2] at hu
        refine ih _ hS2 ?_ u hu
        intro w hw
        rcases List.mem_append.mp hw with hw2 | hw2
        · exact hres w hw2
        · rw [List.mem_singleton] at hw2
          rw [hw2]
          exact Nat.mod_lt _ (by norm_num)
      · rw [if_neg h2] at hu
        by_cases h3 : v ∉ res ∧ v ≠ eid
        · rw [if_pos h3] at hu
          refine ih _ hS2 ?_ u hu
          intro w hw
          rcases List.mem_append.mp hw with hw2 | hw2
          · exact hres w hw2
          · rw [List.mem_singleton] at hw2
            rw [hw2]
            have hbit : v.testBit 31 = false := by
              cases hval : v.testBit 31 with
              | false => rfl
              | true => exact absurd (Or.inl hval) h2
            exact lt_two_pow_31_of_testBit_false (hS v (by simp)) hbit
        · rw [if_neg h3] at hu
          exact ih res hS2 hres u hu

/-- Every element of a stored bucket is an element of some table slot. -/
theorem mem_get_vector_mem_entries {T : Type} (t : Table (List T)) (x y : ℕ)
    (v : T) (hv : v ∈ t.get_vector x y) : ∃ e ∈ t.entries, v ∈ e := by
  rw [Table.get_vector] at hv
  by_cases hidx : t.index (vector_hash x y) < t.entries.length
  · rw [List.getD_eq_getElem _ _ hidx] at hv
    exact ⟨_, List.getElem_mem hidx, hv⟩
  · rw [List.getD_eq_default _ _ (Nat.le_of_not_lt hidx)] at hv
    cases hv

/-- Reading any position of a replicated list. -/
theorem getD_replicate {α : Type} (n : ℕ) (a : α) (i : ℕ) (d : α) :
    (List.replicate n a).getD i d = if i < n then a else d := by
  by_cases hi : i < n
  · rw [if_pos hi, List.getD_eq_getElem _ _ (by simpa using hi), List.getElem_replicate]
  · rw [if_neg hi, List.getD_eq_default]
    simpa using Nat.le_of_not_lt hi

/-- A query over a cleared grid table visits only empty buckets. -/
theorem queryCells_cleared (gridT : Table Entry) (eid sx sy ex ey : ℕ) :
    SpatialHashGrid.queryCells gridT.clear eid sx sy ex ey = [] := by
  have hget : ∀ c : ℕ × ℕ, gridT.clear.get_vector c.1 c.2 = [] := by
    intro c
    rw [Table.get_vector, Table.clear, getD_replicate]
    split
    · rfl
    · rfl
  have hstream : ((SpatialHashGrid.cellsOf sx sy ex ey).flatMap fun c =>
      gridT.clear.get_vector c.1 c.2) = [] := by
    induction SpatialHashGrid.cellsOf sx sy ex ey with
    | nil => rfl
    | cons c C ih => rw [List.flatMap_cons, hget c, List.nil_append, ih]
  show ((SpatialHashGrid.cellsOf sx sy ex ey).flatMap fun c =>
      gridT.clear.get_vector c.1 c.2).foldl
      (SpatialHashGrid.queryStep (sx == ex && sy == ey) eid) [] = []
  rw [hstream]
  rfl

/-- Well-formedness of a table: as many slots as the stored capacity,
and at least one slot. -/
def TableWF {T : Type} (t : Table T) : Prop :=
  t.entries.length = t.capacity ∧ 0 < t.capacity

/-- Well-formedness of the grid: both tables well-formed. -/
def GridWF (g : SpatialHashGrid) : Prop := TableWF g.grid ∧ TableWF g.maps

/-- A freshly constructed table is well-formed. -/
theorem tableWF_new (T : Type) [Inhabited T] (size : ℕ) : TableWF (Table.new T size) := by
  constructor
  · exact List.length_replicate _ _
  · exact Nat.succ_pos _

/-- A freshly constructed grid is well-formed. -/
theorem gridWF_new (size shift : ℕ) : GridWF (SpatialHashGrid.new size shift) :=
  ⟨tableWF_new Entry size, tableWF_new EntityMap size⟩

/-- The delete loop preserves table sizes when it succeeds. -/
theorem deleteFromCells_sizes (id : ℕ) (C : List (ℕ × ℕ)) :
    ∀ t t2 : Table Entry, SpatialHashGrid.deleteFromCells id t C = some t2 →
      t2.entries.length = t.entries.length ∧ t2.capacity = t.capacity := by
  induction C with
  | nil =>
    intro t t2 h
    cases h
    exact ⟨rfl, rfl⟩
  | cons c C ih =>
    intro t t2 h
    rw [SpatialHashGrid.deleteFromCells] at h
    cases hfind : (t.get_vector c.1 c.2).findIdx? (fun v => v % 2 ^ 31 == id) with
    | none => rw [hfind] at h; cases h
    | some i =>
      rw [hfind] at h
      have h2 := ih _ _ h
      rw [h2.1, h2.2]
      constructor
      · simp [Table.set_vector]
      · rfl

/-- Insert preserves well-formedness. -/
theorem gridWF_insert (g : SpatialHashGrid) (id : ℕ) (p : PositionVector) (r : ℚ)
    (h : GridWF g) : GridWF (g.insert id p r) := by
  rw [insert_decompose]
  refine ⟨⟨?_, ?_⟩, ⟨?_, ?_⟩⟩
  · show (insertCellsGrid _ g.grid _).entries.length = (insertCellsGrid _ g.grid _).capacity
    rw [insertCellsGrid_length, insertCellsGrid_capacity]
    exact h.1.1
  · show 0 < (insertCellsGrid _ g.grid _).capacity
    rw [insertCellsGrid_capacity]
    exact h.1.2
  · show (insertCellsMaps _ g.maps _).entries.length = (insertCellsMaps _ g.maps _).capacity
    rw [insertCellsMaps_length, insertCellsMaps_capacity]
    exact h.2.1
  · show 0 < (insertCellsMaps _ g.maps _).capacity
    rw [insertCellsMaps_capacity]
    exact h.2.2

/-- Delete preserves well-formedness when it succeeds. -/
theorem gridWF_delete (g g2 : SpatialHashGrid) (id : ℕ)
    (h : GridWF g) (hdel : g.delete id = some g2) : GridWF g2 := by
  rw [SpatialHashGrid.delete] at hdel
  cases hrun : SpatialHashGrid.deleteFromCells id g.grid (g.maps.get_scalar id) with
  | none => rw [hrun] at hdel; cases hdel
  | some grid2 =>
    rw [hrun] at hdel
    cases hdel
    have hsz := deleteFromCells_sizes id _ _ _ hrun
    refine ⟨⟨?_, ?_⟩, ⟨?_, ?_⟩⟩
    · rw [hsz.1, hsz.2]
      exact h.1.1
    · rw [hsz.2]
      exact h.1.2
    · show (g.maps.entries.set _ _).length = g.maps.capacity
      rw [List.length_set]
      exact h.2.1
    · exact h.2.2

/-- Clear preserves well-formedness. -/
theorem gridWF_clear (g : SpatialHashGrid) (h : GridWF g) : GridWF g.clear := by
  refine ⟨⟨?_, h.1.2⟩, ⟨?_, h.2.2⟩⟩
  · exact List.length_replicate _ _
  · exact List.length_replicate _ _

/-- Every API call preserves well-formedness. -/
theorem gridWF_applyOp (g : SpatialHashGrid) (op : GridOp) (h : GridWF g) :
    GridWF (applyOp g op) := by
  cases op with
  | ins id p r => exact gridWF_insert g id p r h
  | del id =>
    show GridWF ((g.delete id).getD g)
    cases hdel : g.delete id with
    | none => exact h
    | some g2 => exact gridWF_delete g g2 id h hdel
  | reins id p r =>
    show GridWF ((g.reinsert id p r).getD g)
    cases hre : g.reinsert id p r with
    | none => exact h
    | some g2 =>
      rw [SpatialHashGrid.reinsert] at hre
      cases hdel : g.delete id with
      | none => rw [hdel] at hre; cases hre
      | some g3 =>
        rw [hdel] at hre
        cases hre
        exact gridWF_insert g3 id p r (gridWF_delete g g3 id h hdel)
  | clr => exact gridWF_clear g h

/-- Every API call sequence preserves well-formedness. -/
theorem gridWF_applyOps (ops : List GridOp) :
    ∀ g : SpatialHashGrid, GridWF g → GridWF (applyOps ops g) := by
  induction ops with
  | nil => intro g h; exact h
  | cons op ops ih =>
    intro g h
    exact ih (applyOp g op) (gridWF_applyOp g op h)

/-- Tables with equal components are equal. -/
theorem table_eq_of {T : Type} (t1 t2 : Table T) (hE : t1.entries = t2.entries)
    (hC : t1.capacity = t2.capacity) : t1 = t2 := by
  cases t1
  cases t2
  cases hE
  cases hC
  rfl

/-- Evaluating delete once its loop result is known. -/
theorem delete_eq_of (g : SpatialHashGrid) (id : ℕ) (t2 : Table Entry)
    (h : SpatialHashGrid.deleteFromCells id g.grid (g.maps.get_scalar id) = some t2) :
    g.delete id = some { g with grid := t2, maps := g.maps.set_scalar id [] } := by
  rw [SpatialHashGrid.delete, h]

/-- Inserting a fresh 31-bit id (empty occupancy slot, no stored value
unpacking to it) and deleting it immediately restores the grid exactly. -/
theorem insert_delete_roundtrip (g : SpatialHashGrid) (id : ℕ) (p : PositionVector)
    (r : ℚ) (hid : id < 2 ^ 31)
    (hg : 0 < g.grid.entries.length) (hm : 0 < g.maps.entries.length)
    (hmap : g.maps.get_scalar id = [])
    (hent : ∀ e ∈ g.grid.entries, ∀ v ∈ e, v % 2 ^ 31 ≠ id) :
    (g.insert id p r).delete id = some g := by
  have hentS : ∀ s, ∀ v ∈ g.grid.entries.getD s [], v % 2 ^ 31 ≠ id := by
    intro s v hv
    by_cases hs : s < g.grid.entries.length
    · rw [List.getD_eq_getElem _ _ hs] at hv
      exact hent _ (List.getElem_mem hs) v hv
    · rw [List.getD_eq_default _ _ (Nat.le_of_not_lt hs)] at hv
      cases hv
  rw [insert_decompose]
  have hidx : g.maps.index (hash_u64 id) < g.maps.entries.length := index_lt g.maps _ hm
  have hTMget : (insertCellsMaps id g.maps
      (cellsOfBounds (radiusBounds g.shift p r))).get_scalar id =
      cellsOfBounds (radiusBounds g.shift p r) := by
    rw [Table.get_scalar,
      index_congr _ g.maps (insertCellsMaps_length id _ g.maps) (hash_u64 id),
      insertCellsMaps_entries id _ g.maps hm,
      getD_set_of_lt _ _ _ _ _ hidx, if_pos rfl, hmap, List.nil_append]
  have hdel : SpatialHashGrid.deleteFromCells id
      (insertCellsGrid (packIdFlag id (idealOfBounds (radiusBounds g.shift p r)))
        g.grid (cellsOfBounds (radiusBounds g.shift p r)))
      (cellsOfBounds (radiusBounds g.shift p r)) = some g.grid :=
    deleteFromCells_insertCellsGrid id _ (packIdFlag_mod hid _) _ g.grid hg hentS
  have hfull := delete_eq_of
    ⟨insertCellsGrid (packIdFlag id (idealOfBounds (radiusBounds g.shift p r)))
        g.grid (cellsOfBounds (radiusBounds g.shift p r)),
      insertCellsMaps id g.maps (cellsOfBounds (radiusBounds g.shift p r)),
      g.shift⟩ id g.grid (by rw [show (⟨_, insertCellsMaps id g.maps
        (cellsOfBounds (radiusBounds g.shift p r)), g.shift⟩ :
        SpatialHashGrid).maps.get_scalar id =
        cellsOfBounds (radiusBounds g.shift p r) from hTMget]; exact hdel)
  rw [hfull]
  have hmapsEq : (insertCellsMaps id g.maps
      (cellsOfBounds (radiusBounds g.shift p r))).set_scalar id [] = g.maps := by
    apply table_eq_of
    · show (insertCellsMaps id g.maps
          (cellsOfBounds (radiusBounds g.shift p r))).entries.set _ [] = g.maps.entries
      rw [index_congr _ g.maps (insertCellsMaps_length id _ g.maps) (hash_u64 id),
        insertCellsMaps_entries id _ g.maps hm, List.set_set]
      have hmval : ([] : EntityMap) = g.maps.entries.getD (g.maps.index (hash_u64 id))
          default := by
        rw [← hmap, Table.get_scalar]
      rw [hmval, set_getD_self _ _ _ hidx]
    · show (insertCellsMaps id g.maps
          (cellsOfBounds (radiusBounds g.shift p r))).capacity = g.maps.capacity
      rw [insertCellsMaps_capacity]
  rw [hmapsEq]

/-! ## Claim theorems -/

/-- C3 counterexample: deleting an id never inserted on a freshly
constructed SpatialHashGrid does NOT terminate abruptly; the occupancy
slot is empty, the loop body never runs, and delete returns normally
with the grid unchanged. -/
theorem claim_c3_counterexample :
    (SpatialHashGrid.new 1 0).delete 5 = some (SpatialHashGrid.new 1 0) := by
  set_option maxRecDepth 40000 in decide

/-- C3 (amended): deleting a never-inserted id on a freshly constructed
grid is a silent no-op returning the unchanged grid (no panic); the
unwrap panic occurs only when the id's occupancy slot records a cell
whose bucket holds no value unpacking to the id (as in the second
conjunct, where slot aliasing left a stale cell record). -/
theorem claim_c3_amended :
    (∀ size shift id, (SpatialHashGrid.new size shift).delete id =
      some (SpatialHashGrid.new size shift)) ∧
    SpatialHashGrid.delete (⟨⟨[[]], 1⟩, ⟨[[(0, 0)]], 1⟩, 0⟩ : SpatialHashGrid) 0 = none := by
  constructor
  · intro size shift id
    have hlen : 0 < (SpatialHashGrid.new size shift).maps.entries.length := by
      show 0 < (List.replicate (nextPowerOfTwo (size * 1000) + 1)
        (default : EntityMap)).length
      rw [List.length_replicate]
      exact Nat.succ_pos _
    have hmapget : (SpatialHashGrid.new size shift).maps.get_scalar id = [] := by
      rw [Table.get_scalar]
      show (List.replicate (nextPowerOfTwo (size * 1000) + 1)
        (default : EntityMap)).getD _ default = []
      rw [getD_replicate]
      split
      · rfl
      · rfl
    have hrun : SpatialHashGrid.deleteFromCells id (SpatialHashGrid.new size shift).grid
        ((SpatialHashGrid.new size shift).maps.get_scalar id) =
        some (SpatialHashGrid.new size shift).grid := by
      rw [hmapget]
      rfl
    rw [delete_eq_of _ id _ hrun]
    have hmapsEq : (SpatialHashGrid.new size shift).maps.set_scalar id [] =
        (SpatialHashGrid.new size shift).maps := by
      apply table_eq_of
      · show (SpatialHashGrid.new size shift).maps.entries.set _ [] = _
        have hval : ([] : EntityMap) =
            (SpatialHashGrid.new size shift).maps.entries.getD
              ((SpatialHashGrid.new size shift).maps.index (hash_u64 id)) default := by
          rw [← hmapget, Table.get_scalar]
        rw [hval, set_getD_self _ _ _ (index_lt _ _ hlen)]
      · rfl
    rw [hmapsEq]
  · rfl

/-- C4: for any table obtained from SpatialHashGrid::new through any
sequence of API calls, the index computed for any key is strictly below
the backing storage length, in both internal tables, so the unchecked
slot accesses stay in bounds. -/
theorem claim_c4_index_in_bounds (size shift : ℕ) (ops : List GridOp) (key : ℕ) :
    (applyOps ops (SpatialHashGrid.new size shift)).grid.index key <
      (applyOps ops (SpatialHashGrid.new size shift)).grid.entries.length ∧
    (applyOps ops (SpatialHashGrid.new size shift)).maps.index key <
      (applyOps ops (SpatialHashGrid.new size shift)).maps.entries.length := by
  have hWF := gridWF_applyOps ops _ (gridWF_new size shift)
  constructor
  · apply index_lt
    rw [hWF.1.1]
    exact hWF.1.2
  · apply index_lt
    rw [hWF.2.1]
    exact hWF.2.2

/-- C5: Table::new(size) allocates exactly next_power_of_two(size*1000)+1
default slots, count() returns that number, and the grid's count()
agrees. -/
theorem claim_c5_capacity (T : Type) [Inhabited T] (size : ℕ) (hsize : 0 < size)
    (shift : ℕ) :
    (Table.new T size).count = nextPowerOfTwo (size * 1000) + 1 ∧
    (Table.new T size).entries =
      List.replicate (nextPowerOfTwo (size * 1000) + 1) default ∧
    (SpatialHashGrid.new size shift).count = nextPowerOfTwo (size * 1000) + 1 := by
  refine ⟨?_, rfl, ?_⟩
  · show (List.replicate (nextPowerOfTwo (size * 1000) + 1) (default : T)).length = _
    rw [List.length_replicate]
  · show (List.replicate (nextPowerOfTwo (size * 1000) + 1) (default : Entry)).length = _
    rw [List.length_replicate]

/-- Witness for C5 at T = Entry, size 1, shift 4. -/
theorem claim_c5_capacity_witness :
    0 < 1 ∧
    ((Table.new Entry 1).count = nextPowerOfTwo 1000 + 1 ∧
      (Table.new Entry 1).entries =
        List.replicate (nextPowerOfTwo 1000 + 1) default ∧
      (SpatialHashGrid.new 1 4).count = nextPowerOfTwo 1000 + 1) :=
  ⟨by decide, claim_c5_capacity Entry 1 (by decide) 4⟩

/-- C7: query_radius is query_rect specialized to a square probe of side
radius * 2 anchored at the position. -/
theorem claim_c7_radius_is_rect (g : SpatialHashGrid) (entity_id : ℕ)
    (p : PositionVector) (radius : ℚ) :
    g.query_radius entity_id p radius = g.query_rect entity_id p (radius * 2) (radius * 2) :=
  rfl

/-- C8: after clear(), every query over any probe returns the empty
sequence, and count() is unchanged, on any grid reachable from new
through the API. -/
theorem claim_c8_clear_empty (size shift : ℕ) (ops : List GridOp) :
    (∀ eid (p : PositionVector) (r : ℚ),
      (applyOps ops (SpatialHashGrid.new size shift)).clear.query_radius eid p r = []) ∧
    (∀ eid (p : PositionVector) (w h : ℚ),
      (applyOps ops (SpatialHashGrid.new size shift)).clear.query_rect eid p w h = []) ∧
    (applyOps ops (SpatialHashGrid.new size shift)).clear.count =
      (applyOps ops (SpatialHashGrid.new size shift)).count := by
  have hWF := gridWF_applyOps ops _ (gridWF_new size shift)
  refine ⟨?_, ?_, ?_⟩
  · intro eid p r
    exact queryCells_cleared _ eid _ _ _ _
  · intro eid p w h
    exact queryCells_cleared _ eid _ _ _ _
  · show ((applyOps ops (SpatialHashGrid.new size shift)).grid.clear).entries.length =
      (applyOps ops (SpatialHashGrid.new size shift)).grid.entries.length
    show (List.replicate (applyOps ops (SpatialHashGrid.new size shift)).grid.capacity
      (default : Entry)).length = _
    rw [List.length_replicate, hWF.1.1]

/-- C9: the concrete scenario, evaluated on the model: grid with shift 4,
entity 0 at (0,0) radius 4 and entity 1 at (20,20) radius 4 give an empty
query from entity 0; adding entity 2 at (1,1) radius 4 makes the query
from entity 0 return exactly [2] and the query from entity 2 return
exactly [0]. -/
theorem claim_c9_scenario :
    (((SpatialHashGrid.new 1 4).insert 0 ⟨0, 0⟩ 4).insert 1 ⟨20, 20⟩ 4).query_radius
        0 ⟨0, 0⟩ 4 = [] ∧
    ((((SpatialHashGrid.new 1 4).insert 0 ⟨0, 0⟩ 4).insert 1 ⟨20, 20⟩ 4).insert
        2 ⟨1, 1⟩ 4).query_radius 0 ⟨0, 0⟩ 4 = [2] ∧
    ((((SpatialHashGrid.new 1 4).insert 0 ⟨0, 0⟩ 4).insert 1 ⟨20, 20⟩ 4).insert
        2 ⟨1, 1⟩ 4).query_radius 2 ⟨1, 1⟩ 4 = [0] := by
  set_option maxRecDepth 40000 in decide

/-- C10: on any grid whose stored buckets hold u32 values, every id the
queries return has bit 31 clear, in particular is below 2 ^ 31: the
ideal branch masks the flag off, and the de-duplication branch only
pushes values whose flag bit is already clear. -/
theorem claim_c10_flag_never_leaks (g : SpatialHashGrid)
    (hstored : ∀ e ∈ g.grid.entries, ∀ v ∈ e, v < 2 ^ 32) :
    (∀ eid (p : PositionVector) (r : ℚ), ∀ u ∈ g.query_radius eid p r,
      u < 2 ^ 31 ∧ u.testBit 31 = false) ∧
    (∀ eid (p : PositionVector) (w h : ℚ), ∀ u ∈ g.query_rect eid p w h,
      u < 2 ^ 31 ∧ u.testBit 31 = false) := by
  have hq : ∀ eid sx sy ex ey, ∀ u ∈ SpatialHashGrid.queryCells g.grid eid sx sy ex ey,
      u < 2 ^ 31 := by
    intro eid sx sy ex ey u hu
    have hS : ∀ v ∈ (SpatialHashGrid.cellsOf sx sy ex ey).flatMap fun c =>
        g.grid.get_vector c.1 c.2, v < 2 ^ 32 := by
      intro v hv
      rw [List.mem_flatMap] at hv
      obtain ⟨c, _, hvc⟩ := hv
      obtain ⟨e, he, hve⟩ := mem_get_vector_mem_entries g.grid c.1 c.2 v hvc
      exact hstored e he v hve
    exact foldl_queryStep_lt _ eid _ [] hS (by intro u hu; cases hu) u hu
  constructor
  · intro eid p r u hu
    have h := hq eid _ _ _ _ u hu
    exact ⟨h, Nat.testBit_lt_two_pow h⟩
  · intro eid p w h u hu
    have h2 := hq eid _ _ _ _ u hu
    exact ⟨h2, Nat.testBit_lt_two_pow h2⟩

/-- Witness for C10 on a two-slot grid holding one flagged and two plain
values. -/
theorem claim_c10_flag_never_leaks_witness :
    (∀ e ∈ (⟨⟨[[5, 2147483649], [7]], 2⟩, ⟨[[]], 1⟩, 0⟩ :
      SpatialHashGrid).grid.entries, ∀ v ∈ e, v < 2 ^ 32) ∧
    (∀ u ∈ (⟨⟨[[5, 2147483649], [7]], 2⟩, ⟨[[]], 1⟩, 0⟩ :
      SpatialHashGrid).query_radius 0 ⟨0, 0⟩ 1, u < 2 ^ 31 ∧ u.testBit 31 = false) :=
  ⟨by decide, fun u hu =>
    (claim_c10_flag_never_leaks _ (by decide)).1 0 ⟨0, 0⟩ 1 u hu⟩

/-- After one insert on a fresh grid, every stored bucket value unpacks
to the inserted id. -/
theorem new_insert_values (size shift id : ℕ) (p : PositionVector) (r : ℚ)
    (hid : id < 2 ^ 31) :
    ∀ e ∈ ((SpatialHashGrid.new size shift).insert id p r).grid.entries,
      ∀ v ∈ e, v % 2 ^ 31 = id := by
  have hg : 0 < (SpatialHashGrid.new size shift).grid.entries.length := by
    show 0 < (List.replicate (nextPowerOfTwo (size * 1000) + 1) (default : Entry)).length
    rw [List.length_replicate]
    exact Nat.succ_pos _
  rw [insert_decompose]
  intro e he v hv
  obtain ⟨s, hs, hes⟩ := List.getElem_of_mem he
  have hgetD : (insertCellsGrid
      (packIdFlag id (idealOfBounds (radiusBounds (SpatialHashGrid.new size shift).shift p r)))
      (SpatialHashGrid.new size shift).grid
      (cellsOfBounds (radiusBounds (SpatialHashGrid.new size shift).shift p r))).entries.getD
      s [] = e := by
    rw [List.getD_eq_getElem _ _ hs, hes]
  rw [insertCellsGrid_getD _ _ _ hg s] at hgetD
  have hbase : (SpatialHashGrid.new size shift).grid.entries.getD s [] = [] := by
    show (List.replicate (nextPowerOfTwo (size * 1000) + 1) (default : Entry)).getD s [] = []
    rw [getD_replicate]
    split
    · rfl
    · rfl
  rw [hbase, List.nil_append] at hgetD
  rw [← hgetD] at hv
  rw [List.eq_of_mem_replicate hv]
  exact packIdFlag_mod hid _

/-- C2 counterexample: with entity 0 present at cell (0,0), the id 1025
is absent from the grid (no stored value unpacks to it), yet inserting
1025 at (100,100) and deleting it immediately panics instead of
restoring the grid: both ids share occupancy slot 1025 % 1025 = 0, so
the delete walks entity 0's recorded cell and finds no value unpacking
to 1025. -/
theorem claim_c2_counterexample :
    (∀ e ∈ ((SpatialHashGrid.new 1 0).insert 0 ⟨0, 0⟩ 0).grid.entries,
      ∀ v ∈ e, v % 2 ^ 31 ≠ 1025) ∧
    (((SpatialHashGrid.new 1 0).insert 0 ⟨0, 0⟩ 0).insert 1025 ⟨100, 100⟩ 0).delete
      1025 = none := by
  constructor
  · intro e he v hv
    have h := new_insert_values 1 0 0 ⟨0, 0⟩ 0 (by decide) e he v hv
    omega
  · set_option maxRecDepth 40000 in decide

/-- C2 (amended): inserting a 31-bit id whose occupancy slot is empty and
which no stored value unpacks to, then deleting it immediately, restores
the exact previous grid state; in particular every subsequent query
returns identical results. -/
theorem claim_c2_insert_delete_restores (g : SpatialHashGrid) (id : ℕ)
    (p : PositionVector) (r : ℚ) (hid : id < 2 ^ 31)
    (hg : 0 < g.grid.entries.length) (hm : 0 < g.maps.entries.length)
    (hmap : g.maps.get_scalar id = [])
    (hent : ∀ e ∈ g.grid.entries, ∀ v ∈ e, v % 2 ^ 31 ≠ id) :
    (g.insert id p r).delete id = some g ∧
    (∀ eid (pp : PositionVector) (pr : ℚ),
      Option.map (fun g2 => g2.query_radius eid pp pr) ((g.insert id p r).delete id) =
        some (g.query_radius eid pp pr)) ∧
    (∀ eid (pp : PositionVector) (w h : ℚ),
      Option.map (fun g2 => g2.query_rect eid pp w h) ((g.insert id p r).delete id) =
        some (g.query_rect eid pp w h)) := by
  have hmain := insert_delete_roundtrip g id p r hid hg hm hmap hent
  refine ⟨hmain, ?_, ?_⟩
  · intro eid pp pr
    rw [hmain]
    rfl
  · intro eid pp w h
    rw [hmain]
    rfl

/-- Witness for C2 (amended) on a one-slot empty grid. -/
theorem claim_c2_insert_delete_restores_witness :
    (1 : ℕ) < 2 ^ 31 ∧
    0 < (⟨⟨[[]], 1⟩, ⟨[[]], 1⟩, 0⟩ : SpatialHashGrid).grid.entries.length ∧
    0 < (⟨⟨[[]], 1⟩, ⟨[[]], 1⟩, 0⟩ : SpatialHashGrid).maps.entries.length ∧
    (⟨⟨[[]], 1⟩, ⟨[[]], 1⟩, 0⟩ : SpatialHashGrid).maps.get_scalar 1 = [] ∧
    ((⟨⟨[[]], 1⟩, ⟨[[]], 1⟩, 0⟩ : SpatialHashGrid).insert 1 ⟨0, 0⟩ 0).delete 1 =
      some (⟨⟨[[]], 1⟩, ⟨[[]], 1⟩, 0⟩ : SpatialHashGrid) :=
  ⟨by decide, by decide, by decide, by decide,
    (claim_c2_insert_delete_restores _ 1 ⟨0, 0⟩ 0 (by decide) (by decide) (by decide)
      (by decide) (by decide)).1⟩

/-- C6: insert derives the inclusive cell bounds from the truncated
coordinates and the diameter extent, sets the ideal flag exactly when
the bounds coincide, appends the packed id to every visited cell's
bucket, appends every visited cell to the id's occupancy slot, and
changes nothing else (other slots, capacities and the shift are
untouched). -/
theorem claim_c6_insert_effect (g : SpatialHashGrid) (id : ℕ) (x y r : ℚ)
    (hid : id < 2 ^ 31) (hg : 0 < g.grid.entries.length)
    (hm : 0 < g.maps.entries.length) :
    (g.insert id ⟨x, y⟩ r).shift = g.shift ∧
    (g.insert id ⟨x, y⟩ r).grid.capacity = g.grid.capacity ∧
    (g.insert id ⟨x, y⟩ r).maps.capacity = g.maps.capacity ∧
    (g.insert id ⟨x, y⟩ r).maps.entries =
      g.maps.entries.set (g.maps.index (hash_u64 id))
        (g.maps.get_scalar id ++ SpatialHashGrid.cellsOf
          (truncU32 x >>> g.shift) (truncU32 y >>> g.shift)
          (truncU32 (x + r * 2) >>> g.shift) (truncU32 (y + r * 2) >>> g.shift)) ∧
    (∀ s, (g.insert id ⟨x, y⟩ r).grid.entries.getD s [] =
      g.grid.entries.getD s [] ++
        List.replicate
          ((SpatialHashGrid.cellsOf
              (truncU32 x >>> g.shift) (truncU32 y >>> g.shift)
              (truncU32 (x + r * 2) >>> g.shift)
              (truncU32 (y + r * 2) >>> g.shift)).countP
            fun c => slotV g.grid c == s)
          (id |||
            ((if (truncU32 x >>> g.shift == truncU32 (x + r * 2) >>> g.shift &&
                  (truncU32 y >>> g.shift == truncU32 (y + r * 2) >>> g.shift)) = true
              then 1 else 0) <<< 31))) := by
  rw [insert_decompose]
  refine ⟨rfl, ?_, ?_, ?_, ?_⟩
  · exact insertCellsGrid_capacity _ _ g.grid
  · exact insertCellsMaps_capacity id _ g.maps
  · exact insertCellsMaps_entries id _ g.maps hm
  · intro s
    exact insertCellsGrid_getD _ _ g.grid hg s

/-- Witness for C6 on a one-slot empty grid. -/
theorem claim_c6_insert_effect_witness :
    (3 : ℕ) < 2 ^ 31 ∧
    0 < (⟨⟨[[]], 1⟩, ⟨[[]], 1⟩, 0⟩ : SpatialHashGrid).grid.entries.length ∧
    0 < (⟨⟨[[]], 1⟩, ⟨[[]], 1⟩, 0⟩ : SpatialHashGrid).maps.entries.length ∧
    ((⟨⟨[[]], 1⟩, ⟨[[]], 1⟩, 0⟩ : SpatialHashGrid).insert 3 ⟨0, 0⟩ 0).shift = 0 :=
  ⟨by decide, by decide, by decide,
    (claim_c6_insert_effect _ 3 0 0 0 (by decide) (by decide) (by decide)).1⟩

/-- C1 counterexample: entity 1 is ideal in cell (0,0) of a grid with
1025 slots and shift 0; entity 0 overlaps it (both boxes contain (0,0))
and its probe range (0..4) x (0..4) covers entity 1's cell, yet the
query from entity 0 returns id 1 twice: the probed cells (0,0) and
(1,4) alias to slot 0 (since 2 ^ 32 + 4 is divisible by 1025), and the
ideal branch pushes unconditionally on each visit. -/
theorem claim_c1_counterexample :
    (((SpatialHashGrid.new 1 0).insert 1 ⟨0, 0⟩ 0).insert 0 ⟨0, 0⟩ 2).query_radius
        0 ⟨0, 0⟩ 2 = [1, 1] ∧
    ((((SpatialHashGrid.new 1 0).insert 1 ⟨0, 0⟩ 0).insert 0 ⟨0, 0⟩ 2).query_radius
        0 ⟨0, 0⟩ 2).count 1 = 2 := by
  set_option maxRecDepth 40000 in decide

/-- C1 (amended): the grid holds an entity with 31-bit id b exactly as
one insert at position bp with radius br left it (per slot, its packed
id occurs as often as its cell list addresses the slot, and no other
stored value unpacks to b).  Provided additionally that the probed cells
address pairwise distinct slots, any query_rect or query_radius for a
different entity whose derived probe bounds cover the entity's cells
returns b exactly once, regardless of how many cells the entity spans
and regardless of its ideal flag. -/
theorem claim_c1_query_once (g : SpatialHashGrid) (eid b : ℕ) (bp : PositionVector)
    (br : ℚ) (psx psy pex pey : ℕ)
    (hb : b < 2 ^ 31) (hne : b ≠ eid)
    (hlen : 0 < g.grid.entries.length)
    (hCBne : cellsOfBounds (radiusBounds g.shift bp br) ≠ [])
    (hsub : ∀ c ∈ cellsOfBounds (radiusBounds g.shift bp br),
      c ∈ SpatialHashGrid.cellsOf psx psy pex pey)
    (hinj : ∀ c ∈ SpatialHashGrid.cellsOf psx psy pex pey,
      ∀ c2 ∈ SpatialHashGrid.cellsOf psx psy pex pey,
        slotV g.grid c = slotV g.grid c2 → c = c2)
    (hstate : ∀ s < g.grid.entries.length,
      (g.grid.entries.getD s []).count
          (packIdFlag b (idealOfBounds (radiusBounds g.shift bp br))) =
        (cellsOfBounds (radiusBounds g.shift bp br)).countP
          fun c2 => slotV g.grid c2 == s)
    (hpure : ∀ s < g.grid.entries.length, ∀ v ∈ g.grid.entries.getD s [],
      v % 2 ^ 31 = b → v = packIdFlag b (idealOfBounds (radiusBounds g.shift bp br))) :
    (∀ (pp : PositionVector) (w h : ℚ),
      rectBounds g.shift pp w h = (psx, psy, pex, pey) →
      (g.query_rect eid pp w h).count b = 1) ∧
    (∀ (pp : PositionVector) (r2 : ℚ),
      radiusBounds g.shift pp r2 = (psx, psy, pex, pey) →
      (g.query_radius eid pp r2).count b = 1) := by
  have hcore := queryCells_count_entity g.grid eid b psx psy pex pey
    (radiusBounds g.shift bp br).1 (radiusBounds g.shift bp br).2.1
    (radiusBounds g.shift bp br).2.2.1 (radiusBounds g.shift bp br).2.2.2
    hb hne hlen hCBne hsub hinj hstate hpure
  constructor
  · intro pp w h heq
    have hq : g.query_rect eid pp w h = SpatialHashGrid.queryCells g.grid eid
        (rectBounds g.shift pp w h).1 (rectBounds g.shift pp w h).2.1
        (rectBounds g.shift pp w h).2.2.1 (rectBounds g.shift pp w h).2.2.2 := rfl
    rw [hq, heq]
    exact hcore
  · intro pp r2 heq
    have hq : g.query_radius eid pp r2 = SpatialHashGrid.queryCells g.grid eid
        (radiusBounds g.shift pp r2).1 (radiusBounds g.shift pp r2).2.1
        (radiusBounds g.shift pp r2).2.2.1 (radiusBounds g.shift pp r2).2.2.2 := rfl
    rw [hq, heq]
    exact hcore

/-- Witness for C1 (amended) on a one-slot grid holding the flagged
packed id of entity 1 in cell (0,0). -/
theorem claim_c1_query_once_witness :
    (1 : ℕ) < 2 ^ 31 ∧ (1 : ℕ) ≠ 0 ∧
    0 < (⟨⟨[[2147483649]], 1⟩, ⟨[[]], 1⟩, 0⟩ : SpatialHashGrid).grid.entries.length ∧
    cellsOfBounds (radiusBounds 0 ⟨0, 0⟩ 0) ≠ [] ∧
    rectBounds 0 ⟨0, 0⟩ 0 0 = (0, 0, 0, 0) ∧
    ((⟨⟨[[2147483649]], 1⟩, ⟨[[]], 1⟩, 0⟩ : SpatialHashGrid).query_rect
      0 ⟨0, 0⟩ 0 0).count 1 = 1 :=
  ⟨by decide, by decide, by decide, by decide, by decide,
    (claim_c1_query_once (⟨⟨[[2147483649]], 1⟩, ⟨[[]], 1⟩, 0⟩ : SpatialHashGrid)
      0 1 ⟨0, 0⟩ 0 0 0 0 0 (by decide) (by decide) (by decide) (by decide)
      (by decide) (by decide) (by decide) (by decide)).1 ⟨0, 0⟩ 0 0 (by decide)⟩
